import Mathlib

/-!
# Verification of the workflow-station sequential orchestration engine

Shallow embedding of the TypeScript workflow engine (Cloudflare Worker):
the condition evaluator (`utils/condition.ts`), the sequential branching
scheduler (`MyWorkflow.run` in `index.ts`), the submission validator in the
worker `fetch` handler, and the thread / router / agent step handlers.

Embedding conventions:
* JS numbers used as indices are embedded as `Int` (the code compares them
  against `0` with `<`), step numbers as `Nat`.
* External calls (the LLM "Capability Oracle", the HTTP gateway) are
  suspension points whose answers are supplied by an environment value; the
  parsing and control flow applied to those answers is embedded exactly.
* Wall-clock fields (`processedAt`, `duration`, log timestamps) and the
  log/error accumulators are omitted: they are write-only side channels for
  the control flow verified here.
* JS string operations are embedded by executable Lean counterparts:
  `String.prototype.includes` as `jsIncludes`, `trim`/`toLowerCase` as
  `jsTrim`/`jsToLower` (the inputs involved are ASCII), falsy checks on
  strings (`s ||`, `if (s)`) as emptiness tests.
-/

namespace WorkflowStation

/-- `subPrefix pat l` is true when `pat` is a prefix of `l`. -/
def subPrefix : List Char → List Char → Bool
  | [], _ => true
  | _ :: _, [] => false
  | p :: ps, c :: cs => p == c && subPrefix ps cs

/-- `subSearch pat l` is true when `pat` occurs contiguously in `l`. -/
def subSearch (pat : List Char) : List Char → Bool
  | [] => subPrefix pat []
  | c :: cs => subPrefix pat (c :: cs) || subSearch pat cs

/-- JS `s.includes(pat)`: substring containment. -/
def jsIncludes (s pat : String) : Bool :=
  subSearch pat.data s.data

/-- JS `s.trim()`: drop leading and trailing whitespace (embedded by
structural recursion over the character list so that concrete instances
evaluate inside the kernel). -/
def jsTrim (s : String) : String :=
  String.mk
    (((s.data.dropWhile Char.isWhitespace).reverse.dropWhile Char.isWhitespace).reverse)

/-- JS `s.toLowerCase()` on the ASCII strings involved. -/
def jsToLower (s : String) : String :=
  String.mk (s.data.map Char.toLower)

/-- The single-quote character, by code point. -/
def squoteChar : Char := Char.ofNat 39

/-- The double-quote character, by code point. -/
def dquoteChar : Char := Char.ofNat 34

/-- JS `s.replace(/['"]/g, "")`: drop all single and double quotes. -/
def stripQuotes (s : String) : String :=
  String.mk (s.data.filter fun c => !(c == squoteChar || c == dquoteChar))

/-- JS `a || b` on strings: `a` unless it is falsy (empty). -/
def jsOr (a b : String) : String :=
  if a == "" then b else a

/-- JS `a || b` where `a` is an optional string field. -/
def jsOrOpt (a : Option String) (b : String) : String :=
  match a with
  | some s => jsOr s b
  | none => b

/-- JS truthiness of an optional string (`undefined` and `""` are falsy). -/
def jsTruthyStr : Option String → Bool
  | some s => s != ""
  | none => false

/--
Embeds `evaluateCondition` (`utils/condition.ts` lines 9-48).  The source
builds a fixed "respond only true/false" prompt from the condition
expression, the subject step result and its step number, and sends it to the
Oracle (`callLLM`); the returned verdict depends only on the Oracle's reply,
which is taken here as the `response` argument.  The first component is the
boolean verdict; the second records whether the "unclear condition
evaluation result" warning was logged before defaulting to false.
-/
def evaluateCondition (response : String) : Bool × Bool :=
  let normalized := jsToLower (jsTrim response)
  if jsIncludes normalized "true" && !(jsIncludes normalized "false") then
    (true, false)
  else if jsIncludes normalized "false" then
    (false, false)
  else
    (false, true)

/-- `condition` sub-object attached to instructions (`types.ts` lines 6-13). -/
structure Condition where
  evaluateAfterStep : Option Nat
  expression : String
  ifTrue : Option (List Int)
  ifFalse : Option (List Int)
deriving DecidableEq

/-- `ConditionalInstruction` (`types.ts` lines 4-14): a plain LLM step. -/
structure ConditionalInstruction where
  instruction : String
  condition : Option Condition
deriving DecidableEq

/-- Endpoint description nested in router options / agent tools
(`types.ts` lines 56-62).  The `unknown` request body is kept in its
serialized form; it is only ever forwarded to the external gateway. -/
structure OptionEndpoint where
  endpointUrl : String
  apiUrl : String
  method : Option String
  headers : List (String × String)
  body : Option String
deriving DecidableEq

/-- `EndpointInstruction` (`types.ts` lines 17-29). -/
structure EndpointInstruction where
  endpointUrl : String
  apiUrl : String
  method : Option String
  headers : List (String × String)
  body : Option String
  retries : Option Nat
  retryDelay : Option Nat
  timeout : Option Nat
  description : Option String
  condition : Option Condition
deriving DecidableEq

/-- `completionCheck` sub-object of thread instructions (`types.ts` 38-42). -/
structure CompletionCheck where
  mode : String
  expression : Option String
deriving DecidableEq

/-- `ThreadInstruction` (`types.ts` lines 33-44). -/
structure ThreadInstruction where
  collectFromSteps : List Nat
  outputFormat : Option String
  description : Option String
  completionCheck : Option CompletionCheck
  condition : Option Condition
deriving DecidableEq

/-- One entry of `RouterInstruction.options` (`types.ts` lines 52-63). -/
structure RouterOption where
  id : String
  name : String
  description : String
  endpoint : OptionEndpoint
deriving DecidableEq

/-- `RouterInstruction` (`types.ts` lines 48-69). -/
structure RouterInstruction where
  description : String
  evaluationPrompt : String
  options : List RouterOption
  defaultOption : Option String
  retries : Option Nat
  retryDelay : Option Nat
  timeout : Option Nat
  condition : Option Condition
deriving DecidableEq

/-- One entry of `AgentInstruction.availableTools` (`types.ts` lines 77-88). -/
structure AgentTool where
  id : String
  name : String
  description : String
  endpoint : OptionEndpoint
deriving DecidableEq

/-- `AgentInstruction` (`types.ts` lines 73-95). -/
structure AgentInstruction where
  description : String
  decisionPrompt : String
  availableTools : List AgentTool
  fallbackBehavior : String
  llmFallbackPrompt : Option String
  retries : Option Nat
  retryDelay : Option Nat
  timeout : Option Nat
  condition : Option Condition
deriving DecidableEq

/-- `NormalizedInstruction` (`types.ts` lines 98-103): the closed union the
scheduler dispatches over, discriminated in the source by the `type` tag
(`steps/index.ts`, `getStepType`). -/
inductive NormalizedInstruction where
  | llm (i : ConditionalInstruction)
  | endpoint (i : EndpointInstruction)
  | thread (i : ThreadInstruction)
  | router (i : RouterInstruction)
  | agent (i : AgentInstruction)
deriving DecidableEq

/-- The uniform optional `condition` field (`"condition" in inst && inst.condition`). -/
def NormalizedInstruction.condition : NormalizedInstruction → Option Condition
  | .llm i => i.condition
  | .endpoint i => i.condition
  | .thread i => i.condition
  | .router i => i.condition
  | .agent i => i.condition

/-- The `instruction` text each dispatch handler reports back
(`executeLLMStep` returns the instruction itself; the other handlers return
their `desc`, a JS `||` of the optional description and a generated one). -/
def dispatchInstructionText : NormalizedInstruction → String
  | .llm i => i.instruction
  | .endpoint i => jsOrOpt i.description ("Call " ++ i.apiUrl)
  | .thread i =>
      jsOrOpt i.description
        ("Collect results from steps: " ++
          String.intercalate ", " (i.collectFromSteps.map toString))
  | .router i => jsOr i.description ("Router: " ++ i.evaluationPrompt)
  | .agent i => jsOr i.description ("Agent: " ++ i.decisionPrompt)

/-- `branchTaken` values recorded on step results (`types.ts` line 125). -/
inductive BranchTaken where
  | btrue
  | bfalse
  | sequential
deriving DecidableEq

/-- The step-result fields the scheduler produces (`types.ts` lines 117-128)
minus the wall-clock fields `processedAt` and `duration`. -/
structure StepResult where
  stepNumber : Nat
  instruction : String
  result : String
  conditionEvaluated : Bool
  conditionResult : Option Bool
  branchTaken : BranchTaken
deriving DecidableEq

/-- The scheduler's mutable state (`index.ts` lines 230-250): the
insertion-ordered `executedSteps` set (a `List` here; the source JS `Set`
preserves insertion order and only membership and insertion are used), the
FIFO `executionQueue`, and the accumulated `currentResult.steps`. -/
structure RunState where
  executedSteps : List Int
  executionQueue : List Int
  steps : List StepResult
deriving DecidableEq

/-- The environment of external answers: `stepAnswer n` is the result text
produced by dispatching the step with step number `n` (LLM completion or
gateway response); `condAnswer n` is the Oracle's reply to the condition
evaluation performed for the step with step number `n`.  Each step number is
dispatched and condition-evaluated at most once, so functions of the step
number model arbitrary sequences of external answers.  A failing dispatch
aborts the whole run and is outside this environment. -/
structure Oracle where
  stepAnswer : Nat → String
  condAnswer : Nat → String

/-- `branchTargetSteps` (`index.ts` lines 237-247): the union of all
`ifTrue`/`ifFalse` indices across all instructions, computed once before
execution.  Only membership is consumed, so a concatenated list embeds the
JS `Set`. -/
def branchTargetSteps (insts : List NormalizedInstruction) : List Int :=
  insts.foldr
    (fun inst acc =>
      match inst.condition with
      | some c => c.ifTrue.getD [] ++ c.ifFalse.getD [] ++ acc
      | none => acc)
    []

/-- Resolution of the condition subject (`index.ts` lines 338-359): with
`evaluateAfterStep` set, the prior step result with that 1-indexed step
number (a missing one throws); otherwise the current step's result.
`result` is the current step's dispatch result, `stepNumber` its number. -/
def condSubject (steps : List StepResult) (result : String) (stepNumber : Nat)
    (condition : Condition) : Except String (String × Nat) :=
  match condition.evaluateAfterStep with
  | some n =>
      match steps.find? (fun s => s.stepNumber == n) with
      | some stepToEvaluate => .ok (stepToEvaluate.result, n)
      | none => .error ("Cannot evaluate condition: step " ++ toString n ++ " not found")
  | none => .ok (result, stepNumber)

/-- Outcome of one iteration of the dequeue loop: continue with the next
state, or abort the run with a thrown error (the state records the point of
the throw: index marked executed, queue shifted, no step result pushed). -/
inductive IterOut where
  | next (s : RunState)
  | fail (msg : String) (s : RunState)
deriving DecidableEq

/-- The state an iteration outcome carries. -/
def IterOut.state : IterOut → RunState
  | .next s => s
  | .fail _ s => s

/-- The execution queue of an iteration outcome. -/
def IterOut.queue (o : IterOut) : List Int :=
  o.state.executionQueue

/--
One iteration of the scheduler's dequeue loop (`index.ts` lines 253-428),
after `stepIndex` has been shifted off the queue leaving `rest`:
skip already-executed or out-of-range indices; otherwise mark the index
executed, dispatch the step (result text supplied by the environment),
evaluate an attached condition and enqueue the chosen branch (or fall
through to `stepIndex + 1`), and append the step result.  Unconditioned
steps fall through only when the index is not a branch target.
The workflow `context` and the `previousResult` computed at lines 272-275
feed only the prompts of the external calls, which the environment answers,
so they do not appear in this state transition.
-/
def runIter (insts : List NormalizedInstruction) (oracle : Oracle)
    (executedSteps : List Int) (steps : List StepResult)
    (stepIndex : Int) (rest : List Int) : IterOut :=
  if stepIndex ∈ executedSteps then
    .next ⟨executedSteps, rest, steps⟩
  else if h : stepIndex < 0 ∨ (insts.length : Int) ≤ stepIndex then
    .next ⟨executedSteps, rest, steps⟩
  else
    let executed' := executedSteps ++ [stepIndex]
    let instructionConfig := insts.get ⟨stepIndex.toNat, by omega⟩
    let stepNumber := steps.length + 1
    let result := oracle.stepAnswer stepNumber
    let instructionText := dispatchInstructionText instructionConfig
    match instructionConfig.condition with
    | some condition =>
        match condSubject steps result stepNumber condition with
        | .error msg => .fail msg ⟨executed', rest, steps⟩
        | .ok _ =>
            let conditionResult := (evaluateCondition (oracle.condAnswer stepNumber)).1
            let branchTaken := if conditionResult then BranchTaken.btrue else BranchTaken.bfalse
            let branchList := if conditionResult then condition.ifTrue else condition.ifFalse
            let queue' :=
              match branchList with
              | some l =>
                  if 0 < l.length then rest ++ l
                  else if stepIndex + 1 < (insts.length : Int) then rest ++ [stepIndex + 1]
                  else rest
              | none =>
                  if stepIndex + 1 < (insts.length : Int) then rest ++ [stepIndex + 1]
                  else rest
            .next ⟨executed', queue',
              steps ++ [{ stepNumber := stepNumber, instruction := instructionText,
                          result := result, conditionEvaluated := true,
                          conditionResult := some conditionResult,
                          branchTaken := branchTaken }]⟩
    | none =>
        let queue' :=
          if stepIndex ∉ branchTargetSteps insts ∧ stepIndex + 1 < (insts.length : Int) then
            rest ++ [stepIndex + 1]
          else rest
        .next ⟨executed', queue',
          steps ++ [{ stepNumber := stepNumber, instruction := instructionText,
                      result := result, conditionEvaluated := false,
                      conditionResult := none,
                      branchTaken := BranchTaken.sequential }]⟩

/-- The step record an executed unconditioned instruction appends
(restates the record pushed in the `none` branch of `runIter`; used by the
iteration lemmas). -/
def uncondStepRecord (oracle : Oracle) (cfg : NormalizedInstruction)
    (stepNumber : Nat) : StepResult :=
  { stepNumber := stepNumber, instruction := dispatchInstructionText cfg,
    result := oracle.stepAnswer stepNumber, conditionEvaluated := false,
    conditionResult := none, branchTaken := .sequential }

/-- The step record an executed conditioned instruction appends (restates
the record pushed in the `some` branch of `runIter`). -/
def condStepRecord (oracle : Oracle) (cfg : NormalizedInstruction)
    (stepNumber : Nat) : StepResult :=
  { stepNumber := stepNumber, instruction := dispatchInstructionText cfg,
    result := oracle.stepAnswer stepNumber, conditionEvaluated := true,
    conditionResult := some (evaluateCondition (oracle.condAnswer stepNumber)).1,
    branchTaken :=
      if (evaluateCondition (oracle.condAnswer stepNumber)).1 then .btrue
      else .bfalse }

/-- Final outcome of the dequeue loop: normal completion (queue drained) or
an aborting throw. -/
inductive LoopResult where
  | done (s : RunState)
  | fail (msg : String) (s : RunState)
deriving DecidableEq

/-- The state a loop outcome carries. -/
def LoopResult.state : LoopResult → RunState
  | .done s => s
  | .fail _ s => s

/-- The `while (executionQueue.length > 0)` loop (`index.ts` line 253),
driven by explicit fuel; `none` means the fuel ran out before the loop
finished (the termination theorem below computes sufficient fuel). -/
def runLoop (insts : List NormalizedInstruction) (oracle : Oracle) :
    Nat → RunState → Option LoopResult
  | fuel, s =>
    match s.executionQueue with
    | [] => some (.done s)
    | stepIndex :: rest =>
        match fuel with
        | 0 => none
        | fuel + 1 =>
            match runIter insts oracle s.executedSteps s.steps stepIndex rest with
            | .next s' => runLoop insts oracle fuel s'
            | .fail msg s' => some (.fail msg s')

/-- `MyWorkflow.run` after normalization: queue initialized with `[0]`,
empty executed set and step list. -/
def run (insts : List NormalizedInstruction) (oracle : Oracle)
    (fuel : Nat) : Option LoopResult :=
  runLoop insts oracle fuel ⟨[], [0], []⟩

/-- Ordered trace of executed instruction indices of a finished run. -/
def runTrace (r : Option LoopResult) : List Int :=
  match r with
  | some out => out.state.executedSteps
  | none => []

/-- Produced step results of a finished run. -/
def runSteps (r : Option LoopResult) : List StepResult :=
  match r with
  | some out => out.state.steps
  | none => []

/-- The state at an aborting throw, when the run ended in one. -/
def failState (r : Option LoopResult) : Option RunState :=
  match r with
  | some (.fail _ s) => some s
  | _ => none

/-- Length of an optional branch list (absent counts as `0`). -/
def branchLen : Option (List Int) → Nat
  | none => 0
  | some l => l.length

/-- Upper bound on the number of indices a single execution of this
instruction can enqueue: a chosen branch list, or the single fallthrough
index. -/
def instPushBound (inst : NormalizedInstruction) : Nat :=
  match inst.condition with
  | some c => max (max (branchLen c.ifTrue) (branchLen c.ifFalse)) 1
  | none => 1

/-- Upper bound on the number of indices any one iteration can enqueue. -/
def pushBound (insts : List NormalizedInstruction) : Nat :=
  insts.foldr (fun i acc => max (instPushBound i) acc) 1

/-- Loop variant: queue length plus capacity of the not-yet-executed
indices to refill the queue.  Every iteration strictly decreases it. -/
def stateMeasure (insts : List NormalizedInstruction) (s : RunState) : Nat :=
  s.executionQueue.length +
    (insts.length - s.executedSteps.length) * (pushBound insts + 1)

/-- Fuel sufficient for the dequeue loop to finish from the initial state:
the initial value of `stateMeasure`. -/
def runFuel (insts : List NormalizedInstruction) : Nat :=
  1 + insts.length * (pushBound insts + 1)

/-- Loop invariant: executed indices are pairwise distinct and in range,
and at most one step result has been pushed per executed index. -/
def Inv (insts : List NormalizedInstruction) (executedSteps : List Int)
    (steps : List StepResult) : Prop :=
  executedSteps.Nodup ∧
  (∀ x ∈ executedSteps, 0 ≤ x ∧ x < (insts.length : Int)) ∧
  steps.length ≤ executedSteps.length

/-! ## JSON serialization (`JSON.stringify`)

The step handlers format their results with `JSON.stringify(v, null, 2)`
(pretty, two-space indent) and `JSON.stringify(v)` (compact).  The values
serialized are built from strings, non-negative integers, `null`, arrays
and plain objects, embedded as `JsonValue`. -/

/-- JSON values occurring in the handlers' result envelopes. -/
inductive JsonValue where
  | str (s : String)
  | num (n : Nat)
  | null
  | arr (elems : List JsonValue)
  | obj (fields : List (String × JsonValue))

/-- Hexadecimal digit (lowercase), for control-character escapes. -/
def hexDigitChar (n : Nat) : Char :=
  if n < 10 then Char.ofNat (48 + n) else Char.ofNat (87 + n)

/-- `JSON.stringify` escaping of a single character. -/
def jsonEscapeChar (c : Char) : String :=
  if c == dquoteChar then "\\\""
  else if c == '\\' then "\\\\"
  else if c == Char.ofNat 8 then "\\b"
  else if c == Char.ofNat 9 then "\\t"
  else if c == Char.ofNat 10 then "\\n"
  else if c == Char.ofNat 12 then "\\f"
  else if c == Char.ofNat 13 then "\\r"
  else if c.toNat < 32 then
    "\\u00" ++ String.singleton (hexDigitChar (c.toNat / 16)) ++
      String.singleton (hexDigitChar (c.toNat % 16))
  else String.singleton c

/-- A JSON string literal: quoted and escaped. -/
def jsonQuote (s : String) : String :=
  String.singleton dquoteChar ++ String.join (s.data.map jsonEscapeChar) ++
    String.singleton dquoteChar

/-- Indentation of `JSON.stringify(v, null, 2)` at the given depth. -/
def jsonIndent (depth : Nat) : String :=
  String.mk (List.replicate (2 * depth) ' ')

mutual

/-- `JSON.stringify(v, null, 2)` at nesting depth `depth`. -/
def stringifyPretty : Nat → JsonValue → String
  | _, .str s => jsonQuote s
  | _, .num n => toString n
  | _, .null => "null"
  | _, .arr [] => "[]"
  | depth, .arr (x :: xs) =>
      "[\n" ++ String.intercalate ",\n" (stringifyPrettyList (depth + 1) (x :: xs)) ++
        "\n" ++ jsonIndent depth ++ "]"
  | _, .obj [] => "\x7b\x7d"
  | depth, .obj (f :: fs) =>
      "\x7b\n" ++ String.intercalate ",\n" (stringifyPrettyFields (depth + 1) (f :: fs)) ++
        "\n" ++ jsonIndent depth ++ "\x7d"

/-- Array elements, each on its own indented line. -/
def stringifyPrettyList : Nat → List JsonValue → List String
  | _, [] => []
  | depth, x :: xs =>
      (jsonIndent depth ++ stringifyPretty depth x) :: stringifyPrettyList depth xs

/-- Object fields, each on its own indented line. -/
def stringifyPrettyFields : Nat → List (String × JsonValue) → List String
  | _, [] => []
  | depth, (k, v) :: fs =>
      (jsonIndent depth ++ jsonQuote k ++ ": " ++ stringifyPretty depth v) ::
        stringifyPrettyFields depth fs

end

mutual

/-- Compact `JSON.stringify(v)`. -/
def stringifyCompact : JsonValue → String
  | .str s => jsonQuote s
  | .num n => toString n
  | .null => "null"
  | .arr xs => "[" ++ String.intercalate "," (stringifyCompactList xs) ++ "]"
  | .obj fs => "\x7b" ++ String.intercalate "," (stringifyCompactFields fs) ++ "\x7d"

/-- Compact serialization of array elements. -/
def stringifyCompactList : List JsonValue → List String
  | [] => []
  | x :: xs => stringifyCompact x :: stringifyCompactList xs

/-- Compact serialization of object fields. -/
def stringifyCompactFields : List (String × JsonValue) → List String
  | [] => []
  | (k, v) :: fs => (jsonQuote k ++ ":" ++ stringifyCompact v) :: stringifyCompactFields fs

end

/-! ## Thread step handler (`steps/thread-step.ts`) -/

/-- One collected entry (`collectedResults` items, lines 19-35). -/
structure CollectedResult where
  stepNumber : Nat
  instruction : String
  result : String
deriving DecidableEq

/-- The `desc` a thread step reports (lines 14-16). -/
def threadDesc (instruction : ThreadInstruction) : String :=
  jsOrOpt instruction.description
    ("Collect results from steps: " ++
      String.intercalate ", " (instruction.collectFromSteps.map toString))

/-- Results collected from the referenced step numbers, in reference order
(lines 26-39; the source builds `collectedResults` and `missingSteps` in one
pass over `collectFromSteps`, split here into two comprehensions). -/
def threadCollected (instruction : ThreadInstruction) (priorSteps : List StepResult) :
    List CollectedResult :=
  instruction.collectFromSteps.filterMap fun stepNum =>
    (priorSteps.find? fun s => s.stepNumber == stepNum).map fun stepData =>
      ⟨stepData.stepNumber, stepData.instruction, stepData.result⟩

/-- Referenced step numbers with no produced step result, in reference
order (lines 26-39). -/
def threadMissing (instruction : ThreadInstruction) (priorSteps : List StepResult) :
    List Nat :=
  instruction.collectFromSteps.filter fun stepNum =>
    (priorSteps.find? fun s => s.stepNumber == stepNum).isNone

/-- The `Thread incomplete` error message (lines 66-71). -/
def threadMissingMessage (missingSteps : List Nat) : String :=
  "Thread incomplete: missing results from steps " ++
    String.intercalate ", " (missingSteps.map toString) ++
    ". Ensure these steps execute before this thread step."

/-- Formatting of the collected results (lines 73-103), keyed by the
`outputFormat` after the JS `|| "json"` default. -/
def threadFormat (instruction : ThreadInstruction) (collected : List CollectedResult) :
    String :=
  let outputFormat := jsOrOpt instruction.outputFormat "json"
  if outputFormat == "json" then
    stringifyPretty 0 (.obj
      [("collectedSteps", .arr (instruction.collectFromSteps.map fun n => .num n)),
       ("results", .arr (collected.map fun r => .obj
         [("step", .num r.stepNumber),
          ("instruction", .str r.instruction),
          ("result", .str r.result)]))])
  else if outputFormat == "markdown" then
    String.intercalate "\n\n---\n\n" (collected.map fun r =>
      "## Step " ++ toString r.stepNumber ++ "\n**Instruction:** " ++ r.instruction ++
        "\n\n**Result:**\n" ++ r.result)
  else if outputFormat == "numbered" then
    String.intercalate "\n\n" (collected.enum.map fun p =>
      toString (p.1 + 1) ++ ". [Step " ++ toString p.2.stepNumber ++ "] " ++ p.2.result)
  else
    stringifyCompact (.arr (collected.map fun r => .obj
      [("stepNumber", .num r.stepNumber),
       ("instruction", .str r.instruction),
       ("result", .str r.result)]))

/--
Embeds `executeThreadStep` (`steps/thread-step.ts` lines 10-106).
`priorSteps` is `ctx.currentResult.steps`; `oracleAnswer` is the Oracle's
reply to the llm-mode completion check (unused in deterministic mode).
A thrown error is returned as `.error`, success as `.ok (instruction,
result)`.
-/
def executeThreadStep (instruction : ThreadInstruction) (priorSteps : List StepResult)
    (oracleAnswer : String) : Except String (String × String) :=
  let collectedResults := threadCollected instruction priorSteps
  let missingSteps := threadMissing instruction priorSteps
  let completionCheck := instruction.completionCheck.getD ⟨"deterministic", none⟩
  let isComplete :=
    if completionCheck.mode == "deterministic" then
      missingSteps.length == 0
    else if completionCheck.mode == "llm" && jsTruthyStr completionCheck.expression then
      (evaluateCondition oracleAnswer).1
    else false
  if !isComplete && 0 < missingSteps.length then
    .error (threadMissingMessage missingSteps)
  else
    .ok (threadDesc instruction, threadFormat instruction collectedResults)

/-! ## Router step handler (`steps/router-step.ts`) -/

/-- Normalization of the Oracle's selection reply (lines 81-84):
`trim`, `toLowerCase`, strip quotes. -/
def cleanSelection (s : String) : String :=
  stripQuotes (jsToLower (jsTrim s))

/-- Exact option match (lines 87-89): option id, lowercased, equals the
cleaned reply. -/
def findExactOption (options : List RouterOption) (cleaned : String) :
    Option RouterOption :=
  options.find? fun opt => jsToLower opt.id == cleaned

/-- Substring option match (lines 92-103): the cleaned reply contains the
option id or the option id contains the cleaned reply. -/
def findSubstrOption (options : List RouterOption) (cleaned : String) :
    Option RouterOption :=
  options.find? fun opt =>
    jsIncludes cleaned (jsToLower opt.id) || jsIncludes (jsToLower opt.id) cleaned

/-- Default-option lookup (lines 106-116): only a truthy (non-empty)
`defaultOption` is consulted, by exact (case-sensitive) id equality. -/
def findDefaultOption (options : List RouterOption) (defaultOption : Option String) :
    Option RouterOption :=
  match defaultOption with
  | some d => if d == "" then none else options.find? fun opt => opt.id == d
  | none => none

/-- Option resolution of `executeRouterStep` (lines 81-120): exact match,
then substring match, then the configured default, then `options[0]`
(`none` when the option list is empty, which the handler turns into the
`router-selection` error at lines 122-133). -/
def selectRouterOption (options : List RouterOption) (defaultOption : Option String)
    (llmReply : String) : Option RouterOption :=
  let cleanedSelection := cleanSelection llmReply
  match findExactOption options cleanedSelection with
  | some o => some o
  | none =>
      match findSubstrOption options cleanedSelection with
      | some o => some o
      | none =>
          match findDefaultOption options defaultOption with
          | some o => some o
          | none => options.head?

/-! ## Agent step handler (`steps/agent-step.ts`) -/

/-- `NO_TOOL_ID` (line 9). -/
def NO_TOOL_ID : String := "none"

/-- Cleanup of the Oracle's decision reply (line 91). -/
def cleanedDecision (decisionResponse : String) : String :=
  stripQuotes (jsToLower (jsTrim decisionResponse))

/-- `needsNoTool` (lines 94-100): the cleaned decision names the implicit
no-tool choice. -/
def agentNeedsNoTool (cleaned : String) : Bool :=
  cleaned == NO_TOOL_ID || cleaned == "no" || cleaned == "none" ||
    jsIncludes cleaned ("don" ++ String.singleton squoteChar ++ "t need") ||
    jsIncludes cleaned "no tool" ||
    jsIncludes cleaned "existing knowledge"

/-- The skip-fallback result (lines 110-124): a pretty-printed JSON
envelope with the decision metadata and the previous result as `data`. -/
def agentSkipResult (decisionResponse previousResult : String) : String :=
  stringifyPretty 0 (.obj
    [("agentDecision", .obj
       [("selectedTool", .null),
        ("reason", .str "No external data needed"),
        ("llmResponse", .str (jsTrim decisionResponse))]),
     ("data", .str previousResult)])

/-- The llm-fallback result (lines 125-167): the Oracle's direct answer
wrapped in the decision envelope. -/
def agentLlmFallbackResult (decisionResponse llmResponse : String) : String :=
  stringifyPretty 0 (.obj
    [("agentDecision", .obj
       [("selectedTool", .null),
        ("reason", .str "No external data needed - answered with LLM"),
        ("llmResponse", .str (jsTrim decisionResponse))]),
     ("data", .str llmResponse)])

/-- Tool resolution (lines 172-198): exact id match, then substring match,
then the first available tool; `none` only when no tools are declared. -/
def selectAgentTool (availableTools : List AgentTool) (cleaned : String) :
    Option AgentTool :=
  match availableTools.find? (fun tool => jsToLower tool.id == cleaned) with
  | some t => some t
  | none =>
      match availableTools.find? (fun tool =>
          jsIncludes cleaned (jsToLower tool.id) ||
            jsIncludes (jsToLower tool.id) cleaned) with
      | some t => some t
      | none => availableTools.head?

/--
Embeds `executeAgentStep` (`steps/agent-step.ts` lines 15-328).
`previousResult` is `ctx.previousResult`; `decisionResponse` is the
Oracle's reply to the decision prompt; `fallbackAnswer` the Oracle's reply
used by the `llm` fallback; `toolOutcome` abstracts the external endpoint
invocation and result envelope of the tool branch (lines 213-327), the
part of the handler that calls out through the gateway.
-/
def executeAgentStep (instruction : AgentInstruction) (previousResult : String)
    (decisionResponse : String) (fallbackAnswer : String)
    (toolOutcome : AgentTool → Except String String) :
    Except String (String × String) :=
  let desc := jsOr instruction.description ("Agent: " ++ instruction.decisionPrompt)
  let cleaned := cleanedDecision decisionResponse
  if agentNeedsNoTool cleaned then
    if instruction.fallbackBehavior == "skip" then
      .ok (desc, agentSkipResult decisionResponse previousResult)
    else
      .ok (desc, agentLlmFallbackResult decisionResponse fallbackAnswer)
  else
    match selectAgentTool instruction.availableTools cleaned with
    | none =>
        .error ("Agent has no available tools but LLM requested external data. " ++
          "LLM returned: " ++ String.singleton dquoteChar ++ decisionResponse ++
          String.singleton dquoteChar)
    | some selectedTool =>
        match toolOutcome selectedTool with
        | .error errMsg => .error ("Agent tool call failed: " ++ errMsg)
        | .ok result => .ok (desc, result)

/-! ## Submission validation (`index.ts` `fetch`, lines 569-645)

The POST body is unvalidated JSON: the TypeScript casts in
`normalizedInstructions` check nothing at runtime.  A wire-level
instruction is either a bare string or an object, of which the validator
inspects only the `condition` field; the `type` tag and the set of other
field names present are carried to express (non-)validation of variant
fields. -/

/-- An object instruction as it arrives on the wire. -/
structure WireObject where
  typeTag : Option String
  condition : Option Condition
  presentFields : List String
deriving DecidableEq

/-- A wire-level instruction: bare string or object. -/
inductive WireInstruction where
  | str (s : String)
  | obj (o : WireObject)
deriving DecidableEq

/-- The 400 message for an out-of-bounds branch index (lines 612, 624);
`branch` is `"ifTrue"` or `"ifFalse"`. -/
def oobMessage (i : Nat) (branch : String) (idx : Int) : String :=
  "Conditional instruction " ++ toString i ++ ": " ++ branch ++ " index " ++
    toString idx ++ " is out of bounds"

/-- Scan of one branch list (lines 607-617 / 619-630): first index outside
`[0, total)` yields the 400 message. -/
def checkBranch (i : Nat) (branch : String) (total : Nat) :
    Option (List Int) → Option String
  | none => none
  | some idxs =>
      match idxs.find? (fun idx => idx < 0 || (total : Int) ≤ idx) with
      | some idx => some (oobMessage i branch idx)
      | none => none

/-- Validation of one instruction at position `i` (lines 604-631): only a
present `condition` is inspected, `ifTrue` before `ifFalse`; everything
else — including the variant's own required fields — passes. -/
def validateInstruction (total : Nat) (i : Nat) : WireInstruction → Option String
  | .str _ => none
  | .obj o =>
      match o.condition with
      | none => none
      | some cond =>
          match checkBranch i "ifTrue" total cond.ifTrue with
          | some msg => some msg
          | none => checkBranch i "ifFalse" total cond.ifFalse

/-- The validation loop (lines 603-633) from position `i`. -/
def validateInstructionsFrom (total : Nat) : Nat → List WireInstruction → Option String
  | _, [] => none
  | i, inst :: rest =>
      match validateInstruction total i inst with
      | some msg => some msg
      | none => validateInstructionsFrom total (i + 1) rest

/-- Validation of a submitted instruction array: the first out-of-bounds
branch index produces a 400 message, everything else passes. -/
def validateInstructions (insts : List WireInstruction) : Option String :=
  validateInstructionsFrom insts.length 0 insts

/-- A POST body (`Params`, `types.ts` lines 106-114), every field optional
as on the wire. -/
structure PostBody where
  context : Option String
  instructions : Option (List WireInstruction)
  provider : Option String
  model : Option String
  firstInstruction : Option String
  secondInstruction : Option String

/--
Embeds the POST branch of the worker `fetch` handler (lines 569-645):
reject a falsy `context`, reject when neither a non-empty `instructions`
array nor the legacy instruction pair is present, then run the conditional
validation; `.error msg` is the 400 response, `.ok ()` means the workflow
instance is created (steps will execute).
-/
def handlePost (body : PostBody) : Except String Unit :=
  if !jsTruthyStr body.context then
    .error "Missing required field: context"
  else
    let hasInstructions :=
      match body.instructions with
      | some l => 0 < l.length
      | none => false
    let hasLegacyInstructions :=
      jsTruthyStr body.firstInstruction && jsTruthyStr body.secondInstruction
    if !hasInstructions && !hasLegacyInstructions then
      .error ("Missing required fields: either " ++ String.singleton squoteChar ++
        "instructions" ++ String.singleton squoteChar ++ " array or " ++
        String.singleton squoteChar ++ "firstInstruction" ++
        String.singleton squoteChar ++ " and " ++ String.singleton squoteChar ++
        "secondInstruction" ++ String.singleton squoteChar)
    else if hasInstructions then
      match validateInstructions (body.instructions.getD []) with
      | some msg => .error msg
      | none => .ok ()
    else
      .ok ()

/-- Does this condition list a branch index outside `[0, total)`? -/
def condOOB (total : Nat) (c : Condition) : Bool :=
  (c.ifTrue.getD []).any (fun idx => idx < 0 || (total : Int) ≤ idx) ||
    (c.ifFalse.getD []).any (fun idx => idx < 0 || (total : Int) ≤ idx)

/-- Does this wire instruction carry an out-of-bounds branch index? -/
def wireOOB (total : Nat) : WireInstruction → Bool
  | .str _ => false
  | .obj o =>
      match o.condition with
      | some c => condOOB total c
      | none => false

/-! ## Concrete fixtures used by witnesses and counterexamples -/

/-- Spec §8 Example A: `[Simple "A", Conditional check (ifTrue [2],
ifFalse [3]), Simple "success", Simple "fail"]`. -/
def exampleInstructions : List NormalizedInstruction :=
  [.llm ⟨"A", none⟩,
   .llm ⟨"check", some ⟨none, "contains YES", some [2], some [3]⟩⟩,
   .llm ⟨"success", none⟩,
   .llm ⟨"fail", none⟩]

/-- Environment whose condition evaluations all receive `condReply` and
whose dispatches return numbered placeholder texts. -/
def oracleWith (condReply : String) : Oracle :=
  ⟨fun n => "result-" ++ toString n, fun _ => condReply⟩

/-- A self-looping conditional instruction (`ifTrue`/`ifFalse` both `[0]`). -/
def cyclicInsts : List NormalizedInstruction :=
  [.llm ⟨"loop", some ⟨none, "again", some [0], some [0]⟩⟩]

/-- An array whose second instruction's condition names a step number (99)
that never receives a result, so its evaluation throws mid-run while index
2 is still queued. -/
def loopAbortInsts : List NormalizedInstruction :=
  [.llm ⟨"a", some ⟨none, "e", some [1, 2], some [1, 2]⟩⟩,
   .llm ⟨"b", some ⟨some 99, "e2", none, none⟩⟩,
   .llm ⟨"c", none⟩]

/-- Instructions for the conditional-fallthrough witness: index 1 is a
branch target (via instruction 0) and carries a condition whose `ifTrue`
list is empty. -/
def emptyBranchInsts : List NormalizedInstruction :=
  [.llm ⟨"a", some ⟨none, "e", some [1], none⟩⟩,
   .llm ⟨"b", some ⟨none, "e2", some [], none⟩⟩,
   .llm ⟨"c", none⟩]

/-- A produced step result used as prior state in the iteration witnesses. -/
def sampleStep : StepResult :=
  ⟨1, "a", "result-1", false, none, .sequential⟩

/-- Thread fixture: collect steps 1, 2 and 3 in (default) deterministic
mode. -/
def threadFixture : ThreadInstruction :=
  ⟨[1, 2, 3], none, none, none, none⟩

/-- Prior step results holding step numbers 1 and 2 only. -/
def threadFixtureSteps : List StepResult :=
  [⟨1, "i1", "r1", false, none, .sequential⟩,
   ⟨2, "i2", "r2", false, none, .sequential⟩]

/-- Router fixture options. -/
def optWeather : RouterOption :=
  ⟨"weather", "Weather", "weather data", ⟨"e", "a", none, [], none⟩⟩

/-- Second router fixture option. -/
def optNews : RouterOption :=
  ⟨"news", "News", "news data", ⟨"e", "a", none, [], none⟩⟩

/-- Agent fixture: skip fallback, no declared tools. -/
def agentSkipFixture : AgentInstruction :=
  ⟨"", "need data?", [], "skip", none, none, none, none, none⟩

/-- A wire-level endpoint instruction missing every required endpoint
field (`endpointUrl`, `apiUrl` absent). -/
def malformedEndpointWire : WireInstruction :=
  .obj ⟨some "endpoint", none, ["type"]⟩

/-- Submission carrying only the malformed endpoint instruction. -/
def malformedBody : PostBody :=
  ⟨some "ctx", some [malformedEndpointWire], none, none, none, none⟩

/-- Submission with an out-of-bounds `ifTrue` index on instruction 1. -/
def oobBody : PostBody :=
  ⟨some "ctx",
   some [.str "a", .obj ⟨none, some ⟨none, "e", some [5], none⟩, []⟩],
   none, none, none, none⟩

/-- Well-formed single-string submission. -/
def cleanBody : PostBody :=
  ⟨some "ctx", some [.str "hello"], none, none, none, none⟩

/-! ## Validation lemmas (submission `fetch` handler) -/

/-- A branch scan finds nothing iff the branch has no out-of-bounds index. -/
theorem checkBranch_none_iff (i : Nat) (branch : String) (total : Nat)
    (ol : Option (List Int)) :
    checkBranch i branch total ol = none ↔
      (ol.getD []).any (fun idx => idx < 0 || (total : Int) ≤ idx) = false := by
  cases ol with
  | none => simp [checkBranch]
  | some idxs =>
      simp only [checkBranch, Option.getD_some]
      cases hf : idxs.find? (fun idx => idx < 0 || (total : Int) ≤ idx) with
      | none =>
          have hall := List.find?_eq_none.mp hf
          constructor
          · intro _
            rw [← Bool.not_eq_true, List.any_eq_true]
            rintro ⟨x, hx, hpx⟩
            exact hall x hx hpx
          · intro _
            rfl
      | some idx =>
          have hp := List.find?_some hf
          have hm := List.mem_of_find?_eq_some hf
          constructor
          · intro h
            exact absurd h (by simp)
          · intro h
            rw [← Bool.not_eq_true, List.any_eq_true] at h
            exact absurd ⟨idx, hm, hp⟩ h

/-- A branch scan producing a message produced it for an out-of-bounds
index of that branch. -/
theorem checkBranch_some_of_any (i : Nat) (branch : String) (total : Nat)
    (ol : Option (List Int))
    (h : (ol.getD []).any (fun idx => idx < 0 || (total : Int) ≤ idx) = true) :
    ∃ idx, checkBranch i branch total ol = some (oobMessage i branch idx) := by
  cases ol with
  | none => simp at h
  | some idxs =>
      simp only [checkBranch]
      cases hf : idxs.find? (fun idx => idx < 0 || (total : Int) ≤ idx) with
      | none =>
          simp only [Option.getD_some] at h
          rw [List.any_eq_true] at h
          obtain ⟨x, hx, hpx⟩ := h
          exact absurd hpx (List.find?_eq_none.mp hf x hx)
      | some idx => exact ⟨idx, rfl⟩

/-- Per-instruction validation passes iff the instruction carries no
out-of-bounds branch index. -/
theorem validateInstruction_none_iff (total i : Nat) (inst : WireInstruction) :
    validateInstruction total i inst = none ↔ wireOOB total inst = false := by
  cases inst with
  | str s => simp [validateInstruction, wireOOB]
  | obj o =>
      cases hc : o.condition with
      | none => simp [validateInstruction, wireOOB, hc]
      | some cond =>
          simp only [validateInstruction, wireOOB, hc, condOOB]
          cases ht : checkBranch i "ifTrue" total cond.ifTrue with
          | some msg =>
              have : ¬((cond.ifTrue.getD []).any
                  (fun idx => idx < 0 || (total : Int) ≤ idx) = false) := by
                rw [← checkBranch_none_iff i "ifTrue" total]
                simp [ht]
              constructor
              · intro h
                exact absurd h (by simp)
              · intro h
                rcases Bool.or_eq_false_iff.mp h with ⟨h1, _⟩
                exact absurd h1 this
          | none =>
              have h1 := (checkBranch_none_iff i "ifTrue" total cond.ifTrue).mp ht
              cases hfb : checkBranch i "ifFalse" total cond.ifFalse with
              | some msg =>
                  have : ¬((cond.ifFalse.getD []).any
                      (fun idx => idx < 0 || (total : Int) ≤ idx) = false) := by
                    rw [← checkBranch_none_iff i "ifFalse" total]
                    simp [hfb]
                  constructor
                  · intro h
                    exact absurd h (by simp)
                  · intro h
                    rcases Bool.or_eq_false_iff.mp h with ⟨_, h2⟩
                    exact absurd h2 this
              | none =>
                  have h2 := (checkBranch_none_iff i "ifFalse" total cond.ifFalse).mp hfb
                  simp [h1, h2]

/-- An instruction with an out-of-bounds branch index is rejected with the
message naming its position. -/
theorem validateInstruction_some_of_oob (total i : Nat) (inst : WireInstruction)
    (h : wireOOB total inst = true) :
    ∃ branch idx, validateInstruction total i inst = some (oobMessage i branch idx) := by
  cases inst with
  | str s => simp [wireOOB] at h
  | obj o =>
      cases hc : o.condition with
      | none => simp [wireOOB, hc] at h
      | some cond =>
          simp only [wireOOB, hc, condOOB] at h
          simp only [validateInstruction, hc]
          cases ht : checkBranch i "ifTrue" total cond.ifTrue with
          | some msg =>
              have hTrue : ¬((cond.ifTrue.getD []).any
                  (fun idx => idx < 0 || (total : Int) ≤ idx) = false) := by
                rw [← checkBranch_none_iff i "ifTrue" total]
                simp [ht]
              have hTrueAny : (cond.ifTrue.getD []).any
                  (fun idx => idx < 0 || (total : Int) ≤ idx) = true := by
                cases hx : (cond.ifTrue.getD []).any
                    (fun idx => idx < 0 || (total : Int) ≤ idx)
                · exact absurd hx hTrue
                · rfl
              obtain ⟨idx, hidx⟩ := checkBranch_some_of_any i "ifTrue" total _ hTrueAny
              rw [ht] at hidx
              exact ⟨"ifTrue", idx, by rw [hidx]⟩
          | none =>
              have h1 := (checkBranch_none_iff i "ifTrue" total cond.ifTrue).mp ht
              rw [h1] at h
              simp only [Bool.false_or] at h
              obtain ⟨idx, hidx⟩ := checkBranch_some_of_any i "ifFalse" total _ h
              exact ⟨"ifFalse", idx, hidx⟩

/-- The validation loop passes when no instruction carries an
out-of-bounds branch index. -/
theorem validateFrom_none_of_all (total : Nat) (l : List WireInstruction) (i : Nat)
    (h : ∀ inst ∈ l, wireOOB total inst = false) :
    validateInstructionsFrom total i l = none := by
  induction l generalizing i with
  | nil => rfl
  | cons a rest ih =>
      have ha := (validateInstruction_none_iff total i a).mpr (h a (by simp))
      simp only [validateInstructionsFrom, ha]
      exact ih (i + 1) (fun inst hm => h inst (by simp [hm]))

/-- The validation loop rejects the first instruction carrying an
out-of-bounds branch index, naming its absolute position. -/
theorem validateFrom_some_of_oob (total : Nat) (l : List WireInstruction) (i : Nat)
    (h : ∃ inst ∈ l, wireOOB total inst = true) :
    ∃ k branch idx wo,
      validateInstructionsFrom total i l = some (oobMessage (i + k) branch idx) ∧
      l.get? k = some (.obj wo) ∧ wireOOB total (.obj wo) = true := by
  induction l generalizing i with
  | nil => simp at h
  | cons a rest ih =>
      cases hv : validateInstruction total i a with
      | some msg =>
          have hoob : wireOOB total a = true := by
            cases hw : wireOOB total a
            · exact absurd hv (by simp [(validateInstruction_none_iff total i a).mpr hw])
            · rfl
          obtain ⟨branch, idx, hmsg⟩ := validateInstruction_some_of_oob total i a hoob
          rw [hv] at hmsg
          obtain ⟨wo, hwo⟩ : ∃ wo, a = WireInstruction.obj wo := by
            cases a with
            | str s => simp [wireOOB] at hoob
            | obj o => exact ⟨o, rfl⟩
          refine ⟨0, branch, idx, wo, ?_, by simp [hwo], by rw [← hwo]; exact hoob⟩
          simp only [validateInstructionsFrom, hv]
          rw [Option.some_inj.mp hmsg]
          norm_num
      | none =>
          have hano : wireOOB total a = false :=
            (validateInstruction_none_iff total i a).mp hv
          have hrest : ∃ inst ∈ rest, wireOOB total inst = true := by
            rcases h with ⟨inst, hm, hw⟩
            rcases List.mem_cons.mp hm with rfl | hm2
            · exact absurd hw (by simp [hano])
            · exact ⟨inst, hm2, hw⟩
          obtain ⟨k, branch, idx, wo, h1, h2, h3⟩ := ih (i + 1) hrest
          refine ⟨k + 1, branch, idx, wo, ?_, by simpa using h2, h3⟩
          simp only [validateInstructionsFrom, hv]
          rw [h1]
          congr 2
          omega

/-! ## C4: condition-evaluator resolution -/

/-- C4: for every Oracle answer, the condition evaluator returns true iff
the trimmed, lowercased answer contains `"true"` and does not contain
`"false"`; it returns false whenever the normalized answer contains
`"false"`; and on an answer containing neither it returns false with the
"unclear result" warning logged. -/
theorem evaluateCondition_resolution (response : String) :
    ((evaluateCondition response).1 = true ↔
      (jsIncludes (jsToLower (jsTrim response)) "true" = true ∧
        jsIncludes (jsToLower (jsTrim response)) "false" = false)) ∧
    (jsIncludes (jsToLower (jsTrim response)) "false" = true →
      (evaluateCondition response).1 = false) ∧
    (jsIncludes (jsToLower (jsTrim response)) "true" = false →
      jsIncludes (jsToLower (jsTrim response)) "false" = false →
      (evaluateCondition response).1 = false ∧ (evaluateCondition response).2 = true) := by
  unfold evaluateCondition
  cases h1 : jsIncludes (jsToLower (jsTrim response)) "true" <;>
    cases h2 : jsIncludes (jsToLower (jsTrim response)) "false" <;>
      simp [h1, h2]

/-- Witness for C4 at the answer `"maybe"`, which contains neither
`"true"` nor `"false"`: verdict false, warning logged. -/
theorem evaluateCondition_resolution_witness :
    (evaluateCondition "maybe").1 = false ∧ (evaluateCondition "maybe").2 = true :=
  (evaluateCondition_resolution "maybe").2.2 (by decide) (by decide)

/-! ## C7: router option resolution -/

/-- C7: for a router with a non-empty option list, resolution on the
cleaned (trimmed, lowercased, quote-stripped) Oracle reply proceeds exact
id match first, then substring match, then a truthy `defaultOption` naming
a declared option, and finally the first declared option (which exists). -/
theorem selectRouterOption_resolution (options : List RouterOption)
    (defaultOption : Option String) (llmReply : String) (hne : options ≠ []) :
    (∀ o, findExactOption options (cleanSelection llmReply) = some o →
      selectRouterOption options defaultOption llmReply = some o) ∧
    (findExactOption options (cleanSelection llmReply) = none →
      ∀ o, findSubstrOption options (cleanSelection llmReply) = some o →
        selectRouterOption options defaultOption llmReply = some o) ∧
    (findExactOption options (cleanSelection llmReply) = none →
      findSubstrOption options (cleanSelection llmReply) = none →
      ∀ o, findDefaultOption options defaultOption = some o →
        selectRouterOption options defaultOption llmReply = some o) ∧
    (findExactOption options (cleanSelection llmReply) = none →
      findSubstrOption options (cleanSelection llmReply) = none →
      findDefaultOption options defaultOption = none →
      selectRouterOption options defaultOption llmReply = options.head? ∧
        (options.head?).isSome = true) := by
  refine ⟨?_, ?_, ?_, ?_⟩
  · intro o h
    simp [selectRouterOption, h]
  · intro h1 o h2
    simp [selectRouterOption, h1, h2]
  · intro h1 h2 o h3
    simp [selectRouterOption, h1, h2, h3]
  · intro h1 h2 h3
    refine ⟨by simp [selectRouterOption, h1, h2, h3], ?_⟩
    cases options with
    | nil => exact absurd rfl hne
    | cons a l => simp

/-- Witness for C7: no exact or substring match for `"garbage"`, valid
default `"news"` → the default option is selected. -/
theorem selectRouterOption_resolution_witness :
    selectRouterOption [optWeather, optNews] (some "news") "garbage" = some optNews :=
  (selectRouterOption_resolution [optWeather, optNews] (some "news") "garbage"
      (by decide)).2.2.1 (by decide) (by decide) optNews (by decide)

/-! ## C8: thread step in deterministic mode -/

/-- C8: a thread step whose completion check is deterministic (also when
the check is absent, the source default) throws the `Thread incomplete`
error naming exactly the referenced step numbers with no produced result,
and succeeds with the formatted collection when none is missing. -/
theorem executeThreadStep_deterministic (instruction : ThreadInstruction)
    (priorSteps : List StepResult) (oracleAnswer : String)
    (hmode : (instruction.completionCheck.getD ⟨"deterministic", none⟩).mode =
      "deterministic") :
    (threadMissing instruction priorSteps ≠ [] →
      executeThreadStep instruction priorSteps oracleAnswer =
        .error (threadMissingMessage (threadMissing instruction priorSteps))) ∧
    (threadMissing instruction priorSteps = [] →
      executeThreadStep instruction priorSteps oracleAnswer =
        .ok (threadDesc instruction,
          threadFormat instruction (threadCollected instruction priorSteps))) := by
  constructor
  · intro hm
    have hlen : 0 < (threadMissing instruction priorSteps).length :=
      List.length_pos.mpr hm
    unfold executeThreadStep
    simp [hmode, Nat.pos_iff_ne_zero.mp hlen, hlen]
  · intro hm
    unfold executeThreadStep
    simp [hmode, hm]

/-- Witness for C8: `collectFromSteps = [1,2,3]` with only steps 1 and 2
completed fails naming step 3. -/
theorem executeThreadStep_deterministic_witness :
    executeThreadStep threadFixture threadFixtureSteps "x" =
      .error (threadMissingMessage [3]) :=
  (executeThreadStep_deterministic threadFixture threadFixtureSteps "x" rfl).1
    (by decide)

/-! ## C9: agent skip fallback -/

/-- C9 counterexample: with the no-tool decision and `fallbackBehavior =
"skip"`, the step's resultText is the JSON decision envelope, not the
previous step's result `"hello"` itself. -/
theorem executeAgentStep_skip_counterexample :
    executeAgentStep agentSkipFixture "hello" "none" "fb" (fun _ => .ok "tool") =
      .ok ("Agent: need data?", agentSkipResult "none" "hello") ∧
    agentSkipResult "none" "hello" ≠ "hello" := by
  constructor
  · rfl
  · decide

/-- C9 as amended: when the Oracle's decision resolves to the implicit
no-tool choice and `fallbackBehavior` is `"skip"`, the step succeeds with
a resultText that is the pretty-printed JSON envelope recording the
decision and embedding the previous step's result unchanged as its `data`
field. -/
theorem executeAgentStep_skip_passthrough (instruction : AgentInstruction)
    (previousResult decisionResponse fallbackAnswer : String)
    (toolOutcome : AgentTool → Except String String)
    (hno : agentNeedsNoTool (cleanedDecision decisionResponse) = true)
    (hskip : instruction.fallbackBehavior = "skip") :
    executeAgentStep instruction previousResult decisionResponse fallbackAnswer
        toolOutcome =
      .ok (jsOr instruction.description ("Agent: " ++ instruction.decisionPrompt),
        agentSkipResult decisionResponse previousResult) := by
  unfold executeAgentStep
  simp [hno, hskip]

/-- Witness for C9's amended statement at a concrete no-tool decision. -/
theorem executeAgentStep_skip_passthrough_witness :
    executeAgentStep agentSkipFixture "prev" "none" "fb" (fun _ => .ok "tool") =
      .ok (jsOr agentSkipFixture.description
          ("Agent: " ++ agentSkipFixture.decisionPrompt),
        agentSkipResult "none" "prev") :=
  executeAgentStep_skip_passthrough agentSkipFixture "prev" "none" "fb"
    (fun _ => .ok "tool") (by decide) rfl

/-! ## C5: submission validation -/

/-- C5 counterexample: a submission whose only instruction is an
endpoint-typed object missing every required endpoint field
(`endpointUrl`, `apiUrl` absent from its wire object) is accepted — the
workflow instance is created and the malformed step will be dispatched —
instead of failing fast with an error naming instruction 0. -/
theorem handlePost_malformed_accepted : handlePost malformedBody = .ok () := by
  rfl

/-- C5 as amended: submissions are checked up front only for out-of-bounds
`ifTrue`/`ifFalse` indices — any submission (with context and a non-empty
instruction array) containing one is rejected with a 400 error naming the
offending instruction index before the workflow instance is created, while
instructions missing required variant fields pass validation and are
accepted, failing only at dispatch time. -/
theorem handlePost_validation (body : PostBody) (insts : List WireInstruction)
    (hinsts : body.instructions = some insts)
    (hctx : jsTruthyStr body.context = true) :
    ((∃ inst ∈ insts, wireOOB insts.length inst = true) →
      ∃ k branch idx wo,
        handlePost body = .error (oobMessage k branch idx) ∧
        insts.get? k = some (.obj wo) ∧
        wireOOB insts.length (.obj wo) = true) ∧
    ((∀ inst ∈ insts, wireOOB insts.length inst = false) → insts ≠ [] →
      handlePost body = .ok ()) := by
  constructor
  · rintro ⟨inst0, hm0, hw0⟩
    have hne : insts ≠ [] := by
      intro hnil
      rw [hnil] at hm0
      cases hm0
    have hlen : 0 < insts.length := List.length_pos.mpr hne
    obtain ⟨k, branch, idx, wo, h1, h2, h3⟩ :=
      validateFrom_some_of_oob insts.length insts 0 ⟨inst0, hm0, hw0⟩
    refine ⟨k, branch, idx, wo, ?_, h2, h3⟩
    unfold handlePost
    rw [hinsts]
    simp [hctx, hlen, validateInstructions, h1]
  · intro hall hne
    have hlen : 0 < insts.length := List.length_pos.mpr hne
    have hv := validateFrom_none_of_all insts.length insts 0 hall
    unfold handlePost
    rw [hinsts]
    simp [hctx, hlen, validateInstructions, hv]

/-- Witness for C5's amended statement: a clean single-instruction
submission is accepted. -/
theorem handlePost_validation_witness : handlePost cleanBody = .ok () :=
  (handlePost_validation cleanBody [.str "hello"] rfl (by decide)).2
    (by decide) (by decide)

/-! ## C3: branch-target fallthrough suppression -/

/-- C3: executing a fresh, in-range, unconditioned instruction enqueues its
successor `stepIndex + 1` exactly when the index is not a branch target and
the successor is in range; in particular a branch-target index enqueues
nothing. -/
theorem runIter_uncond_fallthrough (insts : List NormalizedInstruction)
    (oracle : Oracle) (executedSteps : List Int) (steps : List StepResult)
    (stepIndex : Int) (rest : List Int) (cfg : NormalizedInstruction)
    (hfresh : stepIndex ∉ executedSteps) (hlow : 0 ≤ stepIndex)
    (hget : insts.get? stepIndex.toNat = some cfg)
    (hcond : cfg.condition = none) :
    (runIter insts oracle executedSteps steps stepIndex rest).queue =
      if stepIndex ∉ branchTargetSteps insts ∧ stepIndex + 1 < (insts.length : Int)
      then rest ++ [stepIndex + 1]
      else rest := by
  obtain ⟨hlt, hval⟩ := List.get?_eq_some.mp hget
  have hnb : ¬(stepIndex < 0 ∨ (insts.length : Int) ≤ stepIndex) := by omega
  unfold runIter
  rw [if_neg hfresh, dif_neg hnb]
  simp only [hval, hcond, IterOut.queue, IterOut.state]

/-- Witness for C3: in `emptyBranchInsts` index 2 is unconditioned; with
index 2 being the last instruction no successor is enqueued. -/
theorem runIter_uncond_fallthrough_witness :
    (runIter emptyBranchInsts (oracleWith "true") [0, 1] [sampleStep] 2 []).queue =
      [] := by
  rw [runIter_uncond_fallthrough emptyBranchInsts (oracleWith "true") [0, 1]
    [sampleStep] 2 [] (.llm ⟨"c", none⟩) (by decide) (by omega) rfl rfl]
  decide

/-! ## C10: conditional steps fall through on an empty branch list -/

/-- C10: executing a fresh, in-range instruction whose condition's subject
resolves and whose branch list for the resulting verdict is absent or
empty enqueues `stepIndex + 1` whenever it is in range — with no regard to
`branchTargetSteps` membership. -/
theorem runIter_cond_empty_branch_fallthrough (insts : List NormalizedInstruction)
    (oracle : Oracle) (executedSteps : List Int) (steps : List StepResult)
    (stepIndex : Int) (rest : List Int) (cfg : NormalizedInstruction) (c : Condition)
    (hfresh : stepIndex ∉ executedSteps) (hlow : 0 ≤ stepIndex)
    (hget : insts.get? stepIndex.toNat = some cfg)
    (hcond : cfg.condition = some c)
    (hsub : ∃ p, condSubject steps (oracle.stepAnswer (steps.length + 1))
      (steps.length + 1) c = .ok p)
    (hempty : (if (evaluateCondition (oracle.condAnswer (steps.length + 1))).1
      then c.ifTrue else c.ifFalse).getD [] = []) :
    (runIter insts oracle executedSteps steps stepIndex rest).queue =
      if stepIndex + 1 < (insts.length : Int) then rest ++ [stepIndex + 1]
      else rest := by
  obtain ⟨hlt, hval⟩ := List.get?_eq_some.mp hget
  have hnb : ¬(stepIndex < 0 ∨ (insts.length : Int) ≤ stepIndex) := by omega
  obtain ⟨p, hp⟩ := hsub
  unfold runIter
  rw [if_neg hfresh, dif_neg hnb]
  simp only [hval, hcond, hp, IterOut.queue, IterOut.state]
  cases hbl : (if (evaluateCondition (oracle.condAnswer (steps.length + 1))).1
      then c.ifTrue else c.ifFalse) with
  | none => simp
  | some l =>
      rw [hbl] at hempty
      simp only [Option.getD_some] at hempty
      subst hempty
      simp

/-- Witness for C10: index 1 of `emptyBranchInsts` is itself a branch
target, its condition's verdict is true and its `ifTrue` list is empty —
index 2 is still enqueued. -/
theorem runIter_cond_empty_branch_fallthrough_witness :
    (runIter emptyBranchInsts (oracleWith "true") [0] [sampleStep] 1 []).queue =
      [2] := by
  rw [runIter_cond_empty_branch_fallthrough emptyBranchInsts (oracleWith "true") [0]
    [sampleStep] 1 [] (.llm ⟨"b", some ⟨none, "e2", some [], none⟩⟩)
    ⟨none, "e2", some [], none⟩ (by decide) (by omega) rfl rfl
    ⟨("result-2", 2), rfl⟩ (by decide)]
  decide

/-! ## C6: spec Example A -/

/-- C6 counterexample: with the Oracle literally answering `"yes"` to the
condition evaluation (an answer containing neither `"true"` nor
`"false"`), the verdict defaults to false: the run executes indices
0, 1, 3 — not 0, 1, 2 — and records `branchTaken = "false"` on step 2. -/
theorem exampleA_yes_counterexample :
    runTrace (run exampleInstructions (oracleWith "yes") 10) = [0, 1, 3] ∧
    (runSteps (run exampleInstructions (oracleWith "yes") 10)).map
        (fun s => s.branchTaken) = [.sequential, .bfalse, .sequential] := by
  constructor
  · decide
  · decide

/-- C6 as amended: with the Oracle answering `"true"` (an affirmative
verdict) for the condition, Example A's run traces instruction indices
0, 1, 2 with step numbers 1, 2, 3, records `branchTaken = "true"` on
step 2, and never executes index 3. -/
theorem exampleA_true_trace :
    runTrace (run exampleInstructions (oracleWith "true") 10) = [0, 1, 2] ∧
    (runSteps (run exampleInstructions (oracleWith "true") 10)).map
        (fun s => s.stepNumber) = [1, 2, 3] ∧
    (runSteps (run exampleInstructions (oracleWith "true") 10)).map
        (fun s => s.branchTaken) = [.sequential, .btrue, .sequential] ∧
    (3 : Int) ∉ runTrace (run exampleInstructions (oracleWith "true") 10) := by
  refine ⟨by decide, by decide, by decide, by decide⟩

/-! ## Scheduler invariant and termination lemmas -/

/-- A duplicate-free list of integers drawn from `[0, n)` has at most `n`
elements. -/
theorem nodup_int_range_length_le (l : List Int) (n : Nat) (hnd : l.Nodup)
    (hmem : ∀ x ∈ l, 0 ≤ x ∧ x < (n : Int)) : l.length ≤ n := by
  classical
  have hsub : l.toFinset ⊆ Finset.Ico (0 : Int) n := by
    intro x hx
    rw [List.mem_toFinset] at hx
    obtain ⟨h1, h2⟩ := hmem x hx
    rw [Finset.mem_Ico]
    exact ⟨h1, h2⟩
  have hcard := Finset.card_le_card hsub
  rw [List.toFinset_card_of_nodup hnd, Int.card_Ico] at hcard
  simpa using hcard

/-- Each instruction's push bound is below the array-wide bound. -/
theorem instPushBound_le_pushBound (insts : List NormalizedInstruction)
    (inst : NormalizedInstruction) (h : inst ∈ insts) :
    instPushBound inst ≤ pushBound insts := by
  induction insts with
  | nil => cases h
  | cons a l ih =>
      rcases List.mem_cons.mp h with rfl | h2
      · exact le_max_left _ _
      · exact le_trans (ih h2) (le_max_right _ _)

/-- The loop variant strictly drops when an execution enqueues at most
`B ≥ p` new indices and marks one of `n` indices executed. -/
theorem measure_step_lt (n e q p B : Nat) (he : e < n) (hp : p ≤ B) :
    q + p + (n - (e + 1)) * (B + 1) < (q + 1) + (n - e) * (B + 1) := by
  obtain ⟨x, hx⟩ : ∃ x, n - e = x + 1 := ⟨n - e - 1, by omega⟩
  have h2 : n - (e + 1) = x := by omega
  rw [h2, hx, add_mul, one_mul]
  linarith

/-- Exhaustive description of one loop iteration: either the dequeued
index is skipped (already executed or out of range), or it is fresh and in
range and the iteration either aborts or executes it, enqueuing at most
`instPushBound` indices and appending exactly one step result. -/
theorem runIter_cases (insts : List NormalizedInstruction) (oracle : Oracle)
    (ex : List Int) (st : List StepResult) (i : Int) (rest : List Int) :
    runIter insts oracle ex st i rest = .next ⟨ex, rest, st⟩ ∨
    (i ∉ ex ∧ 0 ≤ i ∧ i < (insts.length : Int) ∧
      ((∃ msg, runIter insts oracle ex st i rest = .fail msg ⟨ex ++ [i], rest, st⟩) ∨
       (∃ pushed rec cfg, insts.get? i.toNat = some cfg ∧
         pushed.length ≤ instPushBound cfg ∧
         runIter insts oracle ex st i rest =
           .next ⟨ex ++ [i], rest ++ pushed, st ++ [rec]⟩))) := by
  by_cases h1 : i ∈ ex
  · left
    unfold runIter
    rw [if_pos h1]
  · by_cases h2 : i < 0 ∨ (insts.length : Int) ≤ i
    · left
      unfold runIter
      rw [if_neg h1, dif_pos h2]
    · right
      have hge : 0 ≤ i := by omega
      have hlt : i < (insts.length : Int) := by omega
      refine ⟨h1, hge, hlt, ?_⟩
      cases hgo : insts.get? i.toNat with
      | none =>
          rw [List.get?_eq_none] at hgo
          omega
      | some cfg =>
          obtain ⟨hlt2, hval⟩ := List.get?_eq_some.mp hgo
          unfold runIter
          rw [if_neg h1, dif_neg h2]
          simp only [hval]
          cases hc : cfg.condition with
          | none =>
              right
              refine ⟨if i ∉ branchTargetSteps insts ∧ i + 1 < (insts.length : Int)
                  then [i + 1] else [],
                uncondStepRecord oracle cfg (st.length + 1), cfg, rfl, ?_, ?_⟩
              · by_cases hb : i ∉ branchTargetSteps insts ∧
                    i + 1 < (insts.length : Int) <;>
                  simp [hb, instPushBound, hc]
              · by_cases hb : i ∉ branchTargetSteps insts ∧ i + 1 < (insts.length : Int)
                · rw [if_pos hb, if_pos hb]
                  rfl
                · rw [if_neg hb, if_neg hb, List.append_nil]
                  rfl
          | some c =>
              cases hs : condSubject st (oracle.stepAnswer (st.length + 1))
                  (st.length + 1) c with
              | error msg =>
                  left
                  exact ⟨msg, by simp only [hs]⟩
              | ok p =>
                  right
                  simp only [hs]
                  cases hbl : (if (evaluateCondition
                      (oracle.condAnswer (st.length + 1))).1
                      then c.ifTrue else c.ifFalse) with
                  | none =>
                      refine ⟨if i + 1 < (insts.length : Int) then [i + 1] else [],
                        condStepRecord oracle cfg (st.length + 1), cfg, rfl, ?_, ?_⟩
                      · by_cases hf : i + 1 < (insts.length : Int) <;>
                          simp [hf, instPushBound, hc]
                      · dsimp only
                        by_cases hf : i + 1 < (insts.length : Int)
                        · rw [if_pos hf, if_pos hf]
                          rfl
                        · rw [if_neg hf, if_neg hf, List.append_nil]
                          rfl
                  | some l =>
                      by_cases hlen : 0 < l.length
                      · refine ⟨l, condStepRecord oracle cfg (st.length + 1), cfg,
                          rfl, ?_, ?_⟩
                        · have hll : l.length ≤
                              max (branchLen c.ifTrue) (branchLen c.ifFalse) := by
                            by_cases hbv : (evaluateCondition
                                (oracle.condAnswer (st.length + 1))).1 = true
                            · rw [if_pos hbv] at hbl
                              calc l.length = branchLen c.ifTrue := by rw [hbl]; rfl
                                _ ≤ _ := le_max_left _ _
                            · rw [if_neg hbv] at hbl
                              calc l.length = branchLen c.ifFalse := by rw [hbl]; rfl
                                _ ≤ _ := le_max_right _ _
                          calc l.length ≤
                              max (branchLen c.ifTrue) (branchLen c.ifFalse) := hll
                            _ ≤ instPushBound cfg := by simp [instPushBound, hc]
                        · dsimp only
                          rw [if_pos hlen]
                          rfl
                      · refine ⟨if i + 1 < (insts.length : Int) then [i + 1] else [],
                          condStepRecord oracle cfg (st.length + 1), cfg, rfl, ?_, ?_⟩
                        · by_cases hf : i + 1 < (insts.length : Int) <;>
                            simp [hf, instPushBound, hc]
                        · dsimp only
                          rw [if_neg hlen]
                          by_cases hf : i + 1 < (insts.length : Int)
                          · rw [if_pos hf, if_pos hf]
                            rfl
                          · rw [if_neg hf, if_neg hf, List.append_nil]
                            rfl

/-- Every iteration outcome preserves the loop invariant. -/
theorem runIter_inv (insts : List NormalizedInstruction) (oracle : Oracle)
    (ex : List Int) (st : List StepResult) (i : Int) (rest : List Int)
    (hinv : Inv insts ex st) :
    Inv insts (runIter insts oracle ex st i rest).state.executedSteps
      (runIter insts oracle ex st i rest).state.steps := by
  obtain ⟨hnd, hrange, hlen⟩ := hinv
  rcases runIter_cases insts oracle ex st i rest with
    h | ⟨hfresh, hge, hlt, h⟩
  · rw [h]
    exact ⟨hnd, hrange, hlen⟩
  · have hnd' : (ex ++ [i]).Nodup := by
      rw [List.nodup_append]
      exact ⟨hnd, List.nodup_singleton i, by simpa using hfresh⟩
    have hrange' : ∀ x ∈ ex ++ [i], 0 ≤ x ∧ x < (insts.length : Int) := by
      intro x hx
      rcases List.mem_append.mp hx with hx1 | hx1
      · exact hrange x hx1
      · rw [List.mem_singleton] at hx1
        subst hx1
        exact ⟨hge, hlt⟩
    rcases h with ⟨msg, heq⟩ | ⟨pushed, rec, cfg, hget, hbound, heq⟩
    · rw [heq]
      refine ⟨hnd', hrange', ?_⟩
      simp only [IterOut.state]
      simp only [List.length_append, List.length_singleton]
      omega
    · rw [heq]
      refine ⟨hnd', hrange', ?_⟩
      simp only [IterOut.state]
      simp only [List.length_append, List.length_singleton]
      omega

/-- A continuing iteration strictly decreases the loop variant. -/
theorem runIter_next_measure (insts : List NormalizedInstruction) (oracle : Oracle)
    (ex : List Int) (st : List StepResult) (i : Int) (rest : List Int) (s' : RunState)
    (hinv : Inv insts ex st)
    (h : runIter insts oracle ex st i rest = .next s') :
    stateMeasure insts s' < stateMeasure insts ⟨ex, i :: rest, st⟩ := by
  obtain ⟨hnd, hrange, hlen⟩ := hinv
  rcases runIter_cases insts oracle ex st i rest with
    hcase | ⟨hfresh, hge, hlt, hcase⟩
  · rw [hcase] at h
    injection h with h'
    subst h'
    simp only [stateMeasure, List.length_cons]
    generalize (insts.length - ex.length) * (pushBound insts + 1) = m
    omega
  · rcases hcase with ⟨msg, heq⟩ | ⟨pushed, rec, cfg, hget, hbound, heq⟩
    · rw [heq] at h
      cases h
    · rw [heq] at h
      injection h with h'
      subst h'
      have hexlt : ex.length < insts.length := by
        have hnd' : (ex ++ [i]).Nodup := by
          rw [List.nodup_append]
          exact ⟨hnd, List.nodup_singleton i, by simpa using hfresh⟩
        have hrange' : ∀ x ∈ ex ++ [i], 0 ≤ x ∧ x < (insts.length : Int) := by
          intro x hx
          rcases List.mem_append.mp hx with hx1 | hx1
          · exact hrange x hx1
          · rw [List.mem_singleton] at hx1
            subst hx1
            exact ⟨hge, hlt⟩
        have := nodup_int_range_length_le (ex ++ [i]) insts.length hnd' hrange'
        simp only [List.length_append, List.length_singleton] at this
        omega
      have hpb : pushed.length ≤ pushBound insts :=
        le_trans hbound (instPushBound_le_pushBound insts cfg (List.get?_mem hget))
      have hkey := measure_step_lt insts.length ex.length rest.length pushed.length
        (pushBound insts) hexlt hpb
      simp only [stateMeasure, List.length_cons, List.length_append,
        List.length_singleton, List.length_nil, Nat.zero_add]
      linarith [hkey]

/-- Unfolding: an empty queue finishes the loop at any fuel. -/
theorem runLoop_nil (insts : List NormalizedInstruction) (oracle : Oracle)
    (fuel : Nat) (ex : List Int) (st : List StepResult) :
    runLoop insts oracle fuel ⟨ex, [], st⟩ = some (.done ⟨ex, [], st⟩) := by
  cases fuel <;> rfl

/-- Unfolding: a non-empty queue with no fuel runs out. -/
theorem runLoop_cons_zero (insts : List NormalizedInstruction) (oracle : Oracle)
    (ex : List Int) (a : Int) (q' : List Int) (st : List StepResult) :
    runLoop insts oracle 0 ⟨ex, a :: q', st⟩ = none := rfl

/-- Unfolding: a non-empty queue with fuel runs one iteration. -/
theorem runLoop_cons_succ (insts : List NormalizedInstruction) (oracle : Oracle)
    (fuel : Nat) (ex : List Int) (a : Int) (q' : List Int) (st : List StepResult) :
    runLoop insts oracle (fuel + 1) ⟨ex, a :: q', st⟩ =
      match runIter insts oracle ex st a q' with
      | .next s' => runLoop insts oracle fuel s'
      | .fail msg s' => some (.fail msg s') := rfl

/-- The loop invariant holds of every finished loop outcome. -/
theorem runLoop_inv (insts : List NormalizedInstruction) (oracle : Oracle)
    (fuel : Nat) (s : RunState) (out : LoopResult)
    (hinv : Inv insts s.executedSteps s.steps)
    (h : runLoop insts oracle fuel s = some out) :
    Inv insts out.state.executedSteps out.state.steps := by
  induction fuel generalizing s with
  | zero =>
      obtain ⟨ex, q, st⟩ := s
      cases q with
      | nil =>
          rw [runLoop_nil] at h
          simp only [Option.some_inj] at h
          subst h
          exact hinv
      | cons a q' =>
          rw [runLoop_cons_zero] at h
          cases h
  | succ fuel ih =>
      obtain ⟨ex, q, st⟩ := s
      cases q with
      | nil =>
          rw [runLoop_nil] at h
          simp only [Option.some_inj] at h
          subst h
          exact hinv
      | cons a q' =>
          rw [runLoop_cons_succ] at h
          have hiter := runIter_inv insts oracle ex st a q' hinv
          cases hi : runIter insts oracle ex st a q' with
          | next s' =>
              rw [hi] at h hiter
              exact ih s' hiter h
          | fail msg s' =>
              rw [hi] at h hiter
              simp only [Option.some_inj] at h
              subst h
              exact hiter

/-- With fuel at least the loop variant, the loop finishes. -/
theorem runLoop_isSome (insts : List NormalizedInstruction) (oracle : Oracle)
    (fuel : Nat) (s : RunState)
    (hinv : Inv insts s.executedSteps s.steps)
    (hfuel : stateMeasure insts s ≤ fuel) :
    (runLoop insts oracle fuel s).isSome = true := by
  induction fuel generalizing s with
  | zero =>
      obtain ⟨ex, q, st⟩ := s
      cases q with
      | nil =>
          rw [runLoop_nil]
          rfl
      | cons a q' =>
          exfalso
          have h1 : 1 ≤ stateMeasure insts ⟨ex, a :: q', st⟩ := by
            simp only [stateMeasure, List.length_cons]
            exact le_trans (Nat.succ_le_succ (Nat.zero_le _)) (Nat.le_add_right _ _)
          omega
  | succ fuel ih =>
      obtain ⟨ex, q, st⟩ := s
      cases q with
      | nil =>
          rw [runLoop_nil]
          rfl
      | cons a q' =>
          rw [runLoop_cons_succ]
          have hiter := runIter_inv insts oracle ex st a q' hinv
          cases hi : runIter insts oracle ex st a q' with
          | fail msg s' => rfl
          | next s' =>
              rw [hi] at hiter
              have hdec := runIter_next_measure insts oracle ex st a q' s' hinv hi
              exact ih s' hiter (by omega)

/-- A normally finished loop has drained its queue. -/
theorem runLoop_done_queue (insts : List NormalizedInstruction) (oracle : Oracle)
    (fuel : Nat) (s : RunState) (s' : RunState)
    (h : runLoop insts oracle fuel s = some (.done s')) :
    s'.executionQueue = [] := by
  induction fuel generalizing s with
  | zero =>
      obtain ⟨ex, q, st⟩ := s
      cases q with
      | nil =>
          rw [runLoop_nil] at h
          simp only [Option.some_inj] at h
          injection h with h2
          rw [← h2]
      | cons a q' =>
          rw [runLoop_cons_zero] at h
          cases h
  | succ fuel ih =>
      obtain ⟨ex, q, st⟩ := s
      cases q with
      | nil =>
          rw [runLoop_nil] at h
          simp only [Option.some_inj] at h
          injection h with h2
          rw [← h2]
      | cons a q' =>
          rw [runLoop_cons_succ] at h
          cases hi : runIter insts oracle ex st a q' with
          | next s'' =>
              rw [hi] at h
              exact ih s'' h
          | fail msg s'' =>
              rw [hi] at h
              simp at h

/-! ## C1: each instruction index executes at most once -/

/-- C1: for every instruction array, environment and fuel, a finished run's
trace of executed instruction indices (`executedSteps`, insertion-ordered)
is duplicate-free, and at most one `StepResult` was appended per executed
index — so `WorkflowResult.steps` holds at most one entry per instruction
index, even when the `ifTrue`/`ifFalse` indices form cycles. -/
theorem run_executes_each_index_at_most_once (insts : List NormalizedInstruction)
    (oracle : Oracle) (fuel : Nat) (out : LoopResult)
    (h : run insts oracle fuel = some out) :
    out.state.executedSteps.Nodup ∧
    out.state.steps.length ≤ out.state.executedSteps.length := by
  have hinv : Inv insts ([] : List Int) ([] : List StepResult) :=
    ⟨List.nodup_nil, by simp, by simp⟩
  have hfin := runLoop_inv insts oracle fuel ⟨[], [0], []⟩ out hinv h
  exact ⟨hfin.1, hfin.2.2⟩

/-- Witness for C1 on the self-looping single-instruction array: the run
finishes and its trace is duplicate-free. -/
theorem run_executes_each_index_at_most_once_witness :
    ((run cyclicInsts (oracleWith "true") 5).getD
        (.done ⟨[], [], []⟩)).state.executedSteps.Nodup ∧
    ((run cyclicInsts (oracleWith "true") 5).getD
        (.done ⟨[], [], []⟩)).state.steps.length ≤
      ((run cyclicInsts (oracleWith "true") 5).getD
        (.done ⟨[], [], []⟩)).state.executedSteps.length :=
  run_executes_each_index_at_most_once cyclicInsts (oracleWith "true") 5 _ rfl

/-! ## C2: loop termination -/

/-- C2 counterexample: the run of `loopAbortInsts` terminates by the
thrown `step 99 not found` lookup failure while index 2 is still queued:
the dequeue loop does not terminate with an empty queue on every input. -/
theorem run_abort_nonempty_queue_counterexample :
    (failState (run loopAbortInsts (oracleWith "true") 10)).map
        (fun s => s.executionQueue) = some [2] ∧
    (failState (run loopAbortInsts (oracleWith "true") 10)).map
        (fun s => s.executionQueue) ≠ some [] := by
  constructor
  · decide
  · decide

/-- C2 as amended: for every instruction array and condition-verdict
sequence, the dequeue loop terminates within `runFuel insts` iterations
dispatching at most one step per instruction; a normally completed run
ends with the queue empty, while an aborting condition-subject lookup
failure ends the loop with the remaining queue preserved (possibly
non-empty). -/
theorem run_terminates (insts : List NormalizedInstruction) (oracle : Oracle) :
    (run insts oracle (runFuel insts)).isSome = true ∧
    (∀ s, run insts oracle (runFuel insts) = some (.done s) →
      s.executionQueue = []) ∧
    (∀ out, run insts oracle (runFuel insts) = some out →
      out.state.steps.length ≤ insts.length) := by
  have hinv : Inv insts ([] : List Int) ([] : List StepResult) :=
    ⟨List.nodup_nil, by simp, by simp⟩
  refine ⟨?_, ?_, ?_⟩
  · apply runLoop_isSome insts oracle (runFuel insts) ⟨[], [0], []⟩ hinv
    simp [stateMeasure, runFuel]
  · intro s h
    exact runLoop_done_queue insts oracle (runFuel insts) ⟨[], [0], []⟩ s h
  · intro out h
    have hfin := runLoop_inv insts oracle (runFuel insts) ⟨[], [0], []⟩ out hinv h
    have hbound := nodup_int_range_length_le out.state.executedSteps insts.length
      hfin.1 hfin.2.1
    have := hfin.2.2
    omega

/-- Witness for C2's amended statement: Example A's run completes within
the computed fuel. -/
theorem run_terminates_witness :
    (run exampleInstructions (oracleWith "true")
      (runFuel exampleInstructions)).isSome = true :=
  (run_terminates exampleInstructions (oracleWith "true")).1

end WorkflowStation
